import Mathlib

/-!
Verification of the WTE (WebToEpub bot) repository against its
natural-language specification.

The development shallowly embeds the Python sources:
  * `src/database.py` — parser store and the domain resolver `get_repo_parser`;
  * `src/parser.py`   — script execution engine (`run_parser_in_browser`),
    the chapter-listing orchestration (`get_chapter_list`), the fallback
    heuristic extractor, and document assembly (`create_epub_from_chapters`);
  * `src/main.py`     — the chapter-selection filter.

MongoDB collections are embedded as lists of documents in collection order,
with `find_one` returning the first matching document.  Library collaborators
(`urllib.parse.urlparse`, `urllib.parse.urljoin`, the HTML parser, the page
renderer) are passed in as function parameters or as pre-parsed data.
Exceptions are embedded with `Except`.  Python string primitives
(`lower`, `split`, `strip`, slicing) are re-implemented structurally over
`List Char` so that every definition evaluates inside the kernel; they agree
with the Python operations on the ASCII data the program handles.
-/

/-- Python `str.lower()`, on the ASCII hostnames and anchor text the
program works with. -/
def pyLower (s : String) : String :=
  ⟨s.data.map Char.toLower⟩

/-- Splitting a character list at every occurrence of `sep`
(Python `str.split(sep)` for a one-character separator): `acc` holds the
characters of the current field in reverse. -/
def charSplitAux (sep : Char) (acc : List Char) : List Char → List (List Char)
  | [] => [acc.reverse]
  | c :: t => if c == sep then acc.reverse :: charSplitAux sep [] t
              else charSplitAux sep (c :: acc) t

/-- Python `hostname.split('.')`. -/
def pySplitDots (s : String) : List String :=
  (charSplitAux '.' [] s.data).map (fun l => ⟨l⟩)

/-- Boolean test that `pat` is a leading segment of `l`. -/
def isPre : List Char → List Char → Bool
  | [], _ => true
  | _ :: _, [] => false
  | a :: as, b :: bs => a == b && isPre as bs

/-- Boolean test that `pat` occurs contiguously somewhere inside `l`.
Used to embed the MongoDB `$regex` query `.*escaped_hostname.*` from step 5
of `get_repo_parser` (`src/database.py` lines 130-137): with the hostname
regex-escaped, a stored domain matches exactly when it contains the hostname
as a substring. -/
def infixB (pat : List Char) : List Char → Bool
  | [] => isPre pat []
  | c :: t => isPre pat (c :: t) || infixB pat t

/-- A document of the `repo_parsers` collection, as written by
`load_parsers_from_manifest` in `src/parser.py` (fields `filename`,
`domains`, `script`).  The implicit Mongo `_id` is omitted: every writer
sets exactly these three fields, so `$set p` rewrites the whole document. -/
structure Record where
  filename : String
  domains : List String
  script : String
deriving DecidableEq, Repr

/-- A document of the `custom_parsers` collection, as written by
`add_custom_parser` in `src/database.py`. -/
structure CustomRecord where
  user_id : Int
  target_url : String
  script : String
deriving DecidableEq, Repr

/-- The two query shapes `get_repo_parser` issues against the `domains`
array field: equality with an array element, and the step-5 regex
(some array element contains the hostname as a substring). -/
inductive DomainQuery where
  | eq (d : String)
  | containsHost (h : String)
deriving DecidableEq, Repr

/-- Whether a stored record matches a query, following MongoDB semantics on
the `domains` array field: a query on an array field matches when some
array element satisfies it. -/
def recordMatches (q : DomainQuery) (r : Record) : Bool :=
  match q with
  | .eq d => r.domains.contains d
  | .containsHost h => r.domains.any (fun d => infixB h.data d.data)

/-- `find_one` on the `repo_parsers` collection: first document in
collection order that matches the query. -/
def dbFind (db : List Record) (q : DomainQuery) : Option Record :=
  db.find? (recordMatches q)

/-- Runs the queries of `get_repo_parser` in order, returning at the first
query that produces a document (the early `return parser` in
`src/database.py`).  The finder may fail, embedding a query exception. -/
def tryQueries (find : DomainQuery → Except String (Option Record)) :
    List DomainQuery → Except String (Option Record)
  | [] => .ok none
  | q :: qs => do
    let r ← find q
    match r with
    | some p => pure (some p)
    | none => tryQueries find qs

/-- Dotted join used by `'.'.join(parts[i:])` in step 4 of
`get_repo_parser`. -/
def joinDots : List String → String
  | [] => ""
  | [x] => x
  | x :: xs => x ++ "." ++ joinDots xs

/-- The parent-domain queries of step 4 (`src/database.py` lines 119-128):
`parts = hostname.split('.')`; when there are more than two labels, try
`'.'.join(parts[i:])` for `i` in Python `range(1, len(parts) - 1)`. -/
def parentQueries (h : String) : List DomainQuery :=
  let parts := pySplitDots h
  if parts.length > 2 then
    (List.range' 1 (parts.length - 2)).map (fun i => .eq (joinDots (parts.drop i)))
  else
    []

/-- The full query plan of `get_repo_parser` for an already-lowercased
hostname, in source order: step 1 exact match, step 2/3 the single
`www.`-toggled query (`hostname[4:]` when the hostname starts with `www.`,
otherwise `"www." + hostname`), step 4 the parent-domain walk, step 5 the
substring regex (`src/database.py` lines 99-137). -/
def queryPlan (h : String) : List DomainQuery :=
  [.eq h]
    ++ (if isPre "www.".data h.data then [.eq ⟨h.data.drop 4⟩]
        else [.eq ("www." ++ h)])
    ++ parentQueries h
    ++ [.containsHost h]

/-- The body of `get_repo_parser` under its `try`: parse the hostname
(`urlparse(url).hostname`, embedded as the collaborator `parse`), return
`None` when absent, lowercase it, then run the query plan.  A query
exception propagates to the enclosing handler. -/
def getRepoParserRun (parse : String → Option String)
    (find : DomainQuery → Except String (Option Record)) (url : String) :
    Except String (Option Record) :=
  match parse url with
  | none => .ok none
  | some h => tryQueries find (queryPlan (pyLower h))

/-- `get_repo_parser` with its `try/except` (`src/database.py` lines 77-144):
any exception from the body is absorbed and the function returns `None`.
The result is typed `Except` to record that the function itself never
raises to its caller. -/
def getRepoParserE (parse : String → Option String)
    (find : DomainQuery → Except String (Option Record)) (url : String) :
    Except String (Option Record) :=
  match getRepoParserRun parse find url with
  | .ok r => .ok r
  | .error _ => .ok none

/-- `get_repo_parser` over a concrete in-memory collection, where every
query succeeds (the pure reading used by the orchestration claims). -/
def getRepoParser (parse : String → Option String) (db : List Record)
    (url : String) : Option Record :=
  match getRepoParserE parse (fun q => .ok (dbFind db q)) url with
  | .ok r => r
  | .error _ => none

/-- The matching law stated by the specification (§4.1 / §8): hostname `h`
resolves to domain `d` exactly when `h = d`, or the two differ only by a
leading `www.`, or `d` is a suffix of `h` obtained by dropping one or more
leading labels with at least two labels remaining. -/
def resolveSpecCond (h d : String) : Bool :=
  let parts := pySplitDots h
  h == d || ("www." ++ d == h) || ("www." ++ h == d) ||
    (List.range parts.length).any
      (fun i => decide (1 ≤ i) && decide (parts.length - i ≥ 2) &&
        (joinDots (parts.drop i) == d))

/-- Hostname extraction for the concrete counterexample URLs below; it
records what `urlparse(url).hostname` returns on exactly these inputs. -/
def parseHostFixed : String → Option String
  | "http://example.com/" => some "example.com"
  | "http://abc.com/page" => some "abc.com"
  | _ => none

/-- Registry holding one record whose sole domain strictly contains the
hostname `example.com`. -/
def dbC1 : List Record :=
  [{ filename := "NotExample.js", domains := ["notexample.com"], script := "S1" }]

/-- Registry holding one record whose sole domain strictly contains the
hostname `abc.com`. -/
def dbC2 : List Record :=
  [{ filename := "ZzAbc.js", domains := ["zzabc.com"], script := "S2" }]

example :
    getRepoParser (fun _ => some "m.wuxiaworld.com")
      [{ filename := "W.js", domains := ["wuxiaworld.com"], script := "w" }] "u" =
    some { filename := "W.js", domains := ["wuxiaworld.com"], script := "w" } := by
  decide

example :
    getRepoParser (fun _ => some "www.royalroad.com")
      [{ filename := "R.js", domains := ["royalroad.com"], script := "r" }] "u" =
    some { filename := "R.js", domains := ["royalroad.com"], script := "r" } := by
  decide

/-- A JavaScript exception value as observed at the engine boundary:
`error.toString()` and the optional `error.stack`. -/
structure JsErr where
  msg : String
  stack : Option String
deriving DecidableEq, Repr

/-- One chapter entry of an extraction result
(`{title: ..., url: ...}`). -/
structure ChapterItem where
  title : String
  url : String
deriving DecidableEq, Repr

/-- The JSON-shaped value `run_parser_in_browser` receives through
`sendResultToPython` (`src/parser.py` lines 231-268): a chapters result, a
content result, or an error object with message and optional stack. -/
inductive JsResult where
  | chapters (title : String) (items : List ChapterItem)
  | content (html : String)
  | jsError (msg : String) (stack : Option String)
deriving DecidableEq, Repr

/-- The rendered page the script runs against: `document.URL` and
`document.title`. -/
structure PageCtx where
  docURL : String
  docTitle : String
deriving Repr

/-- The behavior of an active parser instance (the object produced by the
`parserFactory.register` hook).  Optional capabilities mirror the
JavaScript truthiness guards (`parser.isChapterUrl && ...`,
`parser.getNovelTitle ? ... : document.title`); each invocation may throw,
embedded with `Except`. -/
structure Handler where
  hasIsChapterUrl : Bool
  isChapterUrl : String → Except JsErr Bool
  hasGetNovelTitle : Bool
  getNovelTitle : Except JsErr String
  hasGetChapterTitle : Bool
  getChapterTitle : Except JsErr String
  getChapters : Except JsErr (List ChapterItem)
  getContent : Except JsErr String

/-- The task argument of `run_parser_in_browser`. -/
inductive ExecTask where
  | getChapters
  | getContent
deriving DecidableEq, Repr

/-- The net effect of `eval(parserScript)` under the overridden
`parserFactory.register`: either the evaluation throws, or it leaves
`activeParserInstance` as `null` or as the last registered handler. -/
abbrev ScriptEval : Type := Except JsErr (Option Handler)

/-- A guarded capability call, embedding the JavaScript truthiness guards
`parser.cap && parser.cap(...)` and `parser.cap ? parser.cap() : default`:
when the capability is absent the default value is produced without a
call. -/
def optCall (has : Bool) (f : Except JsErr α) (dflt : α) : Except JsErr α :=
  if has then f else pure dflt

/-- Task dispatch of the in-page function (`src/parser.py` lines 241-260),
for an active handler: `getChapters` returns a single synthetic chapter
when the handler identifies the page itself as a chapter, else the
enumerated list; `getContent` requires the chapter-page check and returns
the content markup, else an error object.  Any capability throw propagates
as `Except.error`, to be caught at the surrounding boundary. -/
def dispatch (h : Handler) (task : ExecTask) (page : PageCtx) :
    Except JsErr JsResult :=
  match task with
  | .getChapters => do
    let isCh ← optCall h.hasIsChapterUrl (h.isChapterUrl page.docURL) false
    if isCh then
      let novelTitle ← optCall h.hasGetNovelTitle h.getNovelTitle page.docTitle
      let chapterTitle ← optCall h.hasGetChapterTitle h.getChapterTitle page.docTitle
      pure (.chapters novelTitle [{ title := chapterTitle, url := page.docURL }])
    else
      let chs ← h.getChapters
      let novelTitle ← optCall h.hasGetNovelTitle h.getNovelTitle page.docTitle
      pure (.chapters novelTitle chs)
  | .getContent => do
    let isCh ← optCall h.hasIsChapterUrl (h.isChapterUrl page.docURL) false
    if isCh then
      let html ← h.getContent
      pure (.content html)
    else
      pure (.jsError "Parser did not identify this as a chapter URL." none)

/-- The body of the `try` inside the page-evaluated function: evaluate the
target script, then dispatch on the active instance, or produce the
no-instance error object (`src/parser.py` lines 234-263). -/
def engineEval (script : ScriptEval) (task : ExecTask) (page : PageCtx) :
    Except JsErr JsResult :=
  do
    let inst ← script
    match inst with
    | none => pure (.jsError "No parser instance was registered or activated." none)
    | some h => dispatch h task page

/-- The whole page-evaluated function with its `try/catch`
(`src/parser.py` lines 233-266): a throw anywhere inside the body is
converted to the `JavaScript execution crashed` error object carrying the
exception's message and stack.  The `Except` result type records whether
anything escapes the catch. -/
def evalBodyE (script : ScriptEval) (task : ExecTask) (page : PageCtx) :
    Except JsErr JsResult :=
  match engineEval script task page with
  | .ok r => .ok r
  | .error e => .ok (.jsError ("JavaScript execution crashed: " ++ e.msg) e.stack)

/-- The value delivered back to Python through the result callback. -/
def runEngine (script : ScriptEval) (task : ExecTask) (page : PageCtx) :
    JsResult :=
  match evalBodyE script task page with
  | .ok r => r
  | .error e => .jsError e.msg e.stack

/-- Whether an `Except` computation finished without an uncaught
exception. -/
def isOkB : Except ε α → Bool
  | .ok _ => true
  | .error _ => false

/-- `get_custom_parser` of `src/database.py` (lines 67-69): `find_one` on the
`custom_parsers` collection with the exact key
`{'user_id': user_id, 'target_url': url}`. -/
def getCustomParser (customDb : List CustomRecord) (userId : Int)
    (url : String) : Option CustomRecord :=
  customDb.find? (fun c => c.user_id == userId && c.target_url == url)

/-- The parser-script selection performed by the chapter-listing phase
`get_chapter_list` (`src/parser.py` lines 273-306): the function receives
`url` and `user_id` and has both collections in scope, but the only lookup
it performs is `getRepoParser(url)`; when a record is found, the script
handed to `run_parser_in_browser` is that record's `script` field.  The
custom collection and the user id are parameters here exactly because the
source has them available and never consults them. -/
def get_chapter_list_script (parse : String → Option String)
    (repoDb : List Record) (customDb : List CustomRecord) (user_id : Int)
    (url : String) : Option String :=
  (getRepoParser parse repoDb url).map Record.script

/-- The acceptance test of the listing phase (`src/parser.py` line 295):
`result and 'error' not in result and result.get('type') == 'chapters'
and result.get('chapters')` — accepted exactly for a chapters result with
a non-empty item list, over an execution outcome that may also be a
Python-level exception (`Except.error`, e.g. the 30s timeout). -/
def acceptListing : Except String JsResult → Bool
  | .ok (.chapters _ items) => !items.isEmpty
  | _ => false

/-- Whether `get_chapter_list` falls through to the generic scraping block
(`src/parser.py` lines 289-310): always when no record resolved; otherwise
exactly when the execution outcome is not accepted. -/
def listingUsesFallback (resolved : Option Record)
    (outcome : Except String JsResult) : Bool :=
  match resolved with
  | none => true
  | some _ => !acceptListing outcome

/-- The execution outcome observed by `get_chapter_list` when a record did
resolve: either the Python level raised (`pyFail`, e.g. timeout or
navigation of the exposed callback), or the engine delivered the value of
the page-evaluated function. -/
def listingOutcome (script : ScriptEval) (page : PageCtx)
    (pyFail : Option String) : Except String JsResult :=
  match pyFail with
  | some e => .error e
  | none => .ok (runEngine script .getChapters page)

/-- An execution outcome the listing phase treats as an error: a
Python-level exception or an error object from the page. -/
def errorOutcome : Except String JsResult → Bool
  | .error _ => true
  | .ok (.jsError _ _) => true
  | _ => false

/-- An execution outcome that is a chapters result with zero items. -/
def emptyChaptersOutcome : Except String JsResult → Bool
  | .ok (.chapters _ []) => true
  | _ => false

/-- An anchor element of the rendered document, as produced by the HTML
parser collaborator: its `href` attribute (absent when the attribute is
missing) and its visible text. -/
structure Anchor where
  href : Option String
  text : String
deriving DecidableEq, Repr

/-- A chapter dictionary as built by `get_chapter_list` and consumed by
`main.py` and `create_epub_from_chapters`: `selected` is `none` when the
dict lacks the key. -/
structure ChapterDict where
  title : String
  url : String
  selected : Option Bool
deriving DecidableEq, Repr

/-- Python whitespace stripped by `str.strip()` (the six ASCII whitespace
characters). -/
def pyIsSpace (c : Char) : Bool :=
  c == ' ' || c == '\t' || c == '\n' || c == '\x0d' ||
    c == '\x0b' || c == '\x0c'

/-- Python `str.strip()` on ASCII text. -/
def pyStrip (s : String) : String :=
  ⟨((s.data.dropWhile pyIsSpace).reverse.dropWhile pyIsSpace).reverse⟩

/-- The characters of the literal regex alternative `chapter`. -/
def chapterL : List Char :=
  ['c', 'h', 'a', 'p', 't', 'e', 'r']

/-- Head match for the regex alternative `chapter`: the literal occurs at
this position. -/
def chapterHead (l : List Char) : Bool :=
  isPre chapterL l

/-- Head match for the regex alternative `ep\d+`: `ep` followed by at
least one digit at this position. -/
def epHead : List Char → Bool
  | a :: b :: d :: _ => a == 'e' && b == 'p' && d.isDigit
  | _ => false

/-- Head match for the regex alternative `ch\.\d+`: `ch.` followed by at
least one digit at this position. -/
def chDotHead : List Char → Bool
  | a :: b :: c :: d :: _ => a == 'c' && b == 'h' && c == '.' && d.isDigit
  | _ => false

/-- `re.search(r'chapter|ep\d+|ch\.\d+', text)`: some position of the text
starts a match of one of the three alternatives.  (`\d+` needs one digit
for a match to exist; the `re.I` flag in the source is inert because the
text is lowercased first.) -/
def chapterSearch : List Char → Bool
  | [] => false
  | c :: t => chapterHead (c :: t) || epHead (c :: t) || chDotHead (c :: t) ||
      chapterSearch t

/-- The chapter-indicator test applied by the fallback extractor to a
text. -/
def chapterIndicator (s : String) : Bool :=
  chapterSearch s.data

/-- The generic-scraping chapter list (`src/parser.py` lines 315-318):
from the document's anchors, keep those with an `href` attribute whose
stripped text is non-empty and whose lowercased text passes the
chapter-indicator search; each yields a dict with the stripped text as
title, `urljoin(url, href)` as url (the collaborator `join`), and
`selected = True`; when nothing matched, a single synthetic
`Full Page Content` chapter for the whole page.  `keepAnchorText` is the
per-anchor condition `link.text.strip() and re.search(pattern,
link.text.lower(), re.I)`. -/
def keepAnchorText (t : String) : Bool :=
  !(pyStrip t == "") && chapterIndicator (pyLower t)

/-- The generic-scraping chapter list, continued: build the list and fall
back to the synthetic chapter when it is empty. -/
def fallbackChapters (join : String → String → String)
    (anchors : List Anchor) (url : String) : List ChapterDict :=
  let links := anchors.filterMap (fun a => a.href.map (fun h => (a.text, h)))
  let chapters := links.filterMap (fun th =>
    if keepAnchorText th.1 then
      some { title := pyStrip th.1, url := join url th.2, selected := some true }
    else none)
  if chapters.isEmpty then
    [{ title := "Full Page Content", url := url, selected := some true }]
  else chapters

/-- The specification's reading of the chapter-indicator pattern: the
lowercased text contains the literal `chapter`, or `ep` immediately
followed by a digit, or `ch.` immediately followed by a digit. -/
def specIndicator (l : List Char) : Prop :=
  (∃ p q, l = p ++ chapterL ++ q)
  ∨ (∃ p d q, d.isDigit = true ∧ l = p ++ 'e' :: 'p' :: d :: q)
  ∨ (∃ p d q, d.isDigit = true ∧ l = p ++ 'c' :: 'h' :: '.' :: d :: q)

/-- The specification's reading of the fallback extractor: filter the
anchors by the indicator, map each to an absolute, selected chapter
preserving document order, and fall back to the single synthetic chapter
when the filtered list is empty. -/
def specFallback (join : String → String → String) (anchors : List Anchor)
    (url : String) : List ChapterDict :=
  let kept := anchors.filter (fun a => a.href.isSome && keepAnchorText a.text)
  let mapped := kept.map (fun a =>
    { title := pyStrip a.text, url := join url (a.href.getD ""),
      selected := some true })
  if mapped = [] then
    [{ title := "Full Page Content", url := url, selected := some true }]
  else mapped

/-- One `UpdateOne({'filename': p.filename}, {'$set': p}, upsert=True)`
against the collection: replace the first document with that filename
(Mongo reports it modified only when the update actually changed it), or
report that no document matched. -/
def setFirst : List Record → Record → Option (List Record × Bool)
  | [], _ => none
  | r :: rest, p =>
    if r.filename == p.filename then some (p :: rest, !(r == p))
    else match setFirst rest p with
         | some (s, m) => some (r :: s, m)
         | none => none

/-- One bulk-write operation applied to (store, upserted_count,
modified_count): on a miss the document is inserted at the end of the
collection and counted as upserted. -/
def applyOne (st : List Record × Nat × Nat) (p : Record) :
    List Record × Nat × Nat :=
  match setFirst st.1 p with
  | some (s, m) => (s, st.2.1, st.2.2 + (if m then 1 else 0))
  | none => (st.1 ++ [p], st.2.1 + 1, st.2.2)

/-- `bulk_write` of the ordered `UpdateOne` operations of
`save_parsers_from_repo`, with its `upserted_count` and
`modified_count`. -/
def bulkWrite (store : List Record) (batch : List Record) :
    List Record × Nat × Nat :=
  batch.foldl applyOne (store, 0, 0)

/-- `save_parsers_from_repo` (`src/database.py` lines 35-48): an empty
batch changes nothing and reports 0; otherwise the bulk write runs and the
function returns `upserted_count + modified_count`. -/
def save_parsers_from_repo (store : List Record) (batch : List Record) :
    List Record × Nat :=
  if batch.isEmpty then (store, 0)
  else
    let r := bulkWrite store batch
    (r.1, r.2.1 + r.2.2)

/-- `clean_repo_parsers` (`src/database.py` lines 54-57): `delete_many({})`
empties the collection and reports the number of deleted documents. -/
def clean_repo_parsers (store : List Record) : List Record × Nat :=
  ([], store.length)

/-- The database tail of `load_parsers_from_manifest`
(`src/parser.py` lines 151-157), from the already-assembled
`parsers_to_save` list onward: when the list is non-empty the collection
is cleared (the source calls this `clean_all_parsers`; the only such
cleaner defined in `src/database.py` is `clean_repo_parsers`) and the
batch is then bulk-upserted into the now-empty collection; an empty list
leaves the store untouched. -/
def load_parsers_from_manifest (store : List Record)
    (parsers_to_save : List Record) : List Record × Nat :=
  if parsers_to_save.isEmpty then (store, 0)
  else save_parsers_from_repo (clean_repo_parsers store).1 parsers_to_save

/-- First document of the collection carrying a given filename. -/
def firstWith (store : List Record) (f : String) : Option Record :=
  store.find? (fun r => r.filename == f)

/-- The chapter gate of `create_epub_from_chapters`
(`src/parser.py` line 331): `if not chapter_data.get('selected', False):
continue` — a chapter is processed exactly when the key is present and
true. -/
def createEpubIncludes (c : ChapterDict) : Bool :=
  c.selected.getD false

/-- The upstream selection filter of `chapter_selection_callback`
(`src/main.py` line 188): `ch.get('selected', True)` — a chapter with a
missing key is kept. -/
def selectionFilterKeeps (c : ChapterDict) : Bool :=
  c.selected.getD true

/-- The sections `create_epub_from_chapters` appends to the book spine
(`src/parser.py` lines 330-356), with the per-chapter content fetch
abstracted as the collaborator `fetch`: skipped chapters contribute
nothing; a processed chapter contributes its title and
`<h1>{title}</h1>` followed by the fetched content, in list order. -/
def createEpubSections (fetch : ChapterDict → String)
    (chapters : List ChapterDict) : List (String × String) :=
  chapters.filterMap (fun c =>
    if createEpubIncludes c then
      some (c.title, "<h1>" ++ c.title ++ "</h1>" ++ fetch c)
    else none)

/-- The custom-parser collection for the C3 counterexample: user 7 has
uploaded a custom script keyed to exactly the URL being converted. -/
def customDbC3 : List CustomRecord :=
  [{ user_id := 7, target_url := "http://abc.com/page", script := "CUSTOM" }]

/-- The shared registry for the C3 counterexample: one record matching the
hostname of the same URL. -/
def repoDbC3 : List Record :=
  [{ filename := "Site.js", domains := ["abc.com"], script := "SHARED" }]

/-- C1: the claim states that resolution stops after the parent-domain walk
and never matches a record through substring containment between hostname
and stored domain.  The code's step 5 (`src/database.py` lines 130-137)
violates this: for the URL `http://example.com/` against a registry whose
only record is for domain `notexample.com`, none of the spec's matching
conditions holds, yet `get_repo_parser` returns the record because the
stored domain contains the hostname. -/
theorem c1_substring_step_matches_unrelated_domain :
    getRepoParser parseHostFixed dbC1 "http://example.com/" =
      some { filename := "NotExample.js", domains := ["notexample.com"], script := "S1" }
    ∧ resolveSpecCond "example.com" "notexample.com" = false := by
  decide

/-- C2: the claim states that `Resolve` returns a record for hostname `h`
and stored domain `d` if and only if `h = d`, the two differ only by a
leading `www.`, or `d` is a label-suffix of `h` with at least two labels.
The code violates the only-if direction: for hostname `abc.com` against
the single record for domain `zzabc.com`, all three conditions fail, yet
the step-5 substring regex returns the record. -/
theorem c2_matching_law_refuted_at_substring_pair :
    getRepoParser parseHostFixed dbC2 "http://abc.com/page" =
      some { filename := "ZzAbc.js", domains := ["zzabc.com"], script := "S2" }
    ∧ resolveSpecCond "abc.com" "zzabc.com" = false := by
  decide

/-- C3 counterexample: user 7 has a custom record whose key is exactly the
URL being listed, and the shared registry also matches; the chapter-listing
phase nevertheless selects the shared script, refuting the claim that a
matching custom record shadows the shared one during chapter listing. -/
theorem c3_custom_record_does_not_shadow_shared :
    get_chapter_list_script parseHostFixed repoDbC3 customDbC3 7 "http://abc.com/page" =
      some "SHARED"
    ∧ getCustomParser customDbC3 7 "http://abc.com/page" =
      some { user_id := 7, target_url := "http://abc.com/page", script := "CUSTOM" }
    ∧ get_chapter_list_script parseHostFixed repoDbC3 customDbC3 7 "http://abc.com/page" ≠
      some "CUSTOM" := by
  decide

/-- C3 amended: custom parser records are stored and retrievable by exact
`(user, URL)` key, but the chapter-listing phase consults only the shared
registry — the script it selects is independent of the user id and of the
entire custom-parser collection, so no custom record ever shadows a shared
record there. -/
theorem c3_listing_script_independent_of_custom_store :
    ∀ (parse : String → Option String) (repoDb : List Record)
      (customDb customDb2 : List CustomRecord) (uid uid2 : Int) (url : String),
      get_chapter_list_script parse repoDb customDb uid url =
        get_chapter_list_script parse repoDb customDb2 uid2 url := by
  intro parse repoDb customDb customDb2 uid uid2 url
  rfl

/-- C4: every exception raised during script registration or capability
invocation inside the page context is caught by the engine's boundary
`try/catch` — the evaluated body always completes with a result value
(first conjunct), a registration throw becomes the crash error object
carrying the message and stack (second conjunct), and a script that never
produces an active handler yields the no-handler error result rather than
an exception (third conjunct). -/
theorem c4_engine_converts_exceptions_to_error_results :
    ∀ (script : ScriptEval) (task : ExecTask) (page : PageCtx) (e : JsErr),
      isOkB (evalBodyE script task page) = true
      ∧ evalBodyE (Except.error e) task page =
          .ok (.jsError ("JavaScript execution crashed: " ++ e.msg) e.stack)
      ∧ evalBodyE (Except.ok none) task page =
          .ok (.jsError "No parser instance was registered or activated." none) := by
  intro script task page e
  refine ⟨?_, rfl, rfl⟩
  cases h : engineEval script task page <;> simp [evalBodyE, isOkB, h]

/-- C9: `get_repo_parser` is total and never raises to its caller — for
every hostname parser, query backend and input string the guarded function
completes normally (first conjunct); a URL with no parseable hostname
yields `None` (second conjunct); and a backend whose every query raises is
absorbed by the `except` clause, again yielding `None` (third
conjunct). -/
theorem c9_getRepoParser_total_and_absorbing :
    ∀ (parse : String → Option String)
      (find : DomainQuery → Except String (Option Record))
      (url u2 : String) (h : String) (e : String),
      isOkB (getRepoParserE parse find url) = true
      ∧ getRepoParserE (fun _ => none) find u2 = .ok none
      ∧ getRepoParserE (fun _ => some h) (fun _ => .error e) u2 = .ok none := by
  intro parse find url u2 h e
  refine ⟨?_, rfl, rfl⟩
  cases hr : getRepoParserRun parse find url <;> simp [getRepoParserE, isOkB, hr]

/-- C10: a chapter dict lacking the `selected` key is skipped by
`create_epub_from_chapters` (first conjunct) even though the upstream
selection filter of `chapter_selection_callback` keeps it (second
conjunct); a list of only keyless chapters contributes no section at all
(third conjunct); and in general the epub gate processes a chapter exactly
when the key is present and true (fourth conjunct). -/
theorem c10_missing_selected_key_skipped_by_epub :
    ∀ (fetch : ChapterDict → String) (chapters : List ChapterDict)
      (title url : String),
      createEpubIncludes { title := title, url := url, selected := none } = false
      ∧ selectionFilterKeeps { title := title, url := url, selected := none } = true
      ∧ createEpubSections fetch (chapters.filter (fun c => c.selected.isNone)) = []
      ∧ ∀ c : ChapterDict, createEpubIncludes c = (c.selected == some true) := by
  intro fetch chapters title url
  refine ⟨rfl, rfl, ?_, ?_⟩
  · induction chapters with
    | nil => rfl
    | cons c rest ih =>
      rcases c with ⟨t, u, s⟩
      cases s with
      | none => simpa [createEpubSections, createEpubIncludes] using ih
      | some b => simpa [createEpubSections] using ih
  · intro c
    rcases c with ⟨t, u, s⟩
    rcases s with _ | b
    · rfl
    · cases b <;> rfl


/-- On task `getChapters` the in-page dispatch yields either a thrown
exception or a chapters result; the `content` shape is reserved for the
`getContent` task. -/
theorem dispatch_getChapters_shape (h : Handler) (p : PageCtx) :
    (∃ e, dispatch h .getChapters p = .error e) ∨
    (∃ t items, dispatch h .getChapters p = .ok (.chapters t items)) := by
  unfold dispatch
  cases hx : optCall h.hasIsChapterUrl (h.isChapterUrl p.docURL) false with
  | error e => left; exact ⟨e, by simp [Bind.bind, Except.bind, hx]⟩
  | ok isCh =>
    cases isCh with
    | true =>
      cases hnt : optCall h.hasGetNovelTitle h.getNovelTitle p.docTitle with
      | error e => left; exact ⟨e, by simp [Bind.bind, Except.bind, hx, hnt]⟩
      | ok nt =>
        cases hct : optCall h.hasGetChapterTitle h.getChapterTitle p.docTitle with
        | error e => left; exact ⟨e, by simp [Bind.bind, Except.bind, hx, hnt, hct]⟩
        | ok ct =>
          right
          exact ⟨nt, [{ title := ct, url := p.docURL }],
            by simp [Bind.bind, Except.bind, hx, hnt, hct, Pure.pure, Except.pure]⟩
    | false =>
      cases hch : h.getChapters with
      | error e => left; exact ⟨e, by simp [Bind.bind, Except.bind, hx, hch]⟩
      | ok chs =>
        cases hnt : optCall h.hasGetNovelTitle h.getNovelTitle p.docTitle with
        | error e => left; exact ⟨e, by simp [Bind.bind, Except.bind, hx, hch, hnt]⟩
        | ok nt =>
          right
          exact ⟨nt, chs, by simp [Bind.bind, Except.bind, hx, hch, hnt, Pure.pure, Except.pure]⟩

/-- The value delivered for a `getChapters` run is never a `content`
result. -/
theorem runEngine_getChapters_not_content (s : ScriptEval) (p : PageCtx)
    (html : String) : runEngine s .getChapters p ≠ .content html := by
  cases s with
  | error e =>
    simp [runEngine, evalBodyE, engineEval, Bind.bind, Except.bind]
  | ok inst =>
    cases inst with
    | none =>
      simp [runEngine, evalBodyE, engineEval, Bind.bind, Except.bind, Pure.pure, Except.pure]
    | some h =>
      rcases dispatch_getChapters_shape h p with ⟨e, hd⟩ | ⟨t, items, hd⟩ <;>
        simp [runEngine, evalBodyE, engineEval, Bind.bind, Except.bind, hd]

/-- C5: the listing phase falls back to generic scraping exactly when no
parser record resolved, or the execution outcome is an error (a Python or
page-level failure), or it is a chapters result with zero items; the
outcome is quantified over every script behavior and optional Python-level
failure reachable for the `getChapters` task, and in the remaining case —
a chapters result with at least one item — the parser result is accepted
and the fallback is not run. -/
theorem c5_fallback_exactly_on_miss_error_or_empty :
    ∀ (resolved : Option Record) (script : ScriptEval) (page : PageCtx)
      (pyFail : Option String),
      listingUsesFallback resolved (listingOutcome script page pyFail) = true ↔
        (resolved = none
         ∨ errorOutcome (listingOutcome script page pyFail) = true
         ∨ emptyChaptersOutcome (listingOutcome script page pyFail) = true) := by
  intro resolved script page pyFail
  cases resolved with
  | none => simp [listingUsesFallback]
  | some r =>
    cases pyFail with
    | some e =>
      simp [listingUsesFallback, listingOutcome, acceptListing, errorOutcome,
        emptyChaptersOutcome]
    | none =>
      cases hr : runEngine script .getChapters page with
      | chapters t items =>
        cases items with
        | nil =>
          simp [listingUsesFallback, listingOutcome, acceptListing, errorOutcome,
            emptyChaptersOutcome, hr]
        | cons a as =>
          simp [listingUsesFallback, listingOutcome, acceptListing, errorOutcome,
            emptyChaptersOutcome, hr]
      | content html => exact absurd hr (runEngine_getChapters_not_content script page html)
      | jsError m st =>
        simp [listingUsesFallback, listingOutcome, acceptListing, errorOutcome,
          emptyChaptersOutcome, hr]

/-- Concrete instance of the fallback condition: with no resolved record
the listing phase runs the fallback. -/
theorem c5_fallback_witness :
    listingUsesFallback none
      (listingOutcome (Except.ok none) { docURL := "u", docTitle := "t" } none) = true :=
  (c5_fallback_exactly_on_miss_error_or_empty none (Except.ok none)
    { docURL := "u", docTitle := "t" } none).mpr (Or.inl rfl)


/-- `isPre` decides the existence of a completing tail. -/
theorem isPre_iff (p : List Char) : ∀ l, isPre p l = true ↔ ∃ q, l = p ++ q := by
  induction p with
  | nil =>
    intro l
    simp [isPre]
  | cons a as ih =>
    intro l
    cases l with
    | nil =>
      simp only [isPre, List.cons_append]
      constructor
      · intro h; cases h
      · rintro ⟨q, h⟩; cases h
    | cons b bs =>
      simp only [isPre, Bool.and_eq_true, beq_iff_eq, ih bs, List.cons_append,
        List.cons.injEq]
      constructor
      · rintro ⟨rfl, q, rfl⟩; exact ⟨q, rfl, rfl⟩
      · rintro ⟨q, rfl, rfl⟩; exact ⟨rfl, q, rfl⟩

/-- `chapterHead` holds exactly when the literal `chapter` starts here. -/
theorem chapterHead_iff (l : List Char) :
    chapterHead l = true ↔ ∃ q, l = chapterL ++ q :=
  isPre_iff chapterL l

/-- `epHead` holds exactly when `ep` plus a digit starts here. -/
theorem epHead_iff (l : List Char) :
    epHead l = true ↔ ∃ d q, d.isDigit = true ∧ l = 'e' :: 'p' :: d :: q := by
  constructor
  · intro h
    cases l with
    | nil => simp [epHead] at h
    | cons a t =>
      cases t with
      | nil => simp [epHead] at h
      | cons b t2 =>
        cases t2 with
        | nil => simp [epHead] at h
        | cons d q =>
          simp only [epHead, Bool.and_eq_true, beq_iff_eq] at h
          obtain ⟨⟨ha, hb⟩, hd⟩ := h
          subst ha; subst hb
          exact ⟨d, q, hd, rfl⟩
  · rintro ⟨d, q, hd, rfl⟩
    simp [epHead, hd]

/-- `chDotHead` holds exactly when `ch.` plus a digit starts here. -/
theorem chDotHead_iff (l : List Char) :
    chDotHead l = true ↔ ∃ d q, d.isDigit = true ∧ l = 'c' :: 'h' :: '.' :: d :: q := by
  constructor
  · intro h
    cases l with
    | nil => simp [chDotHead] at h
    | cons a t =>
      cases t with
      | nil => simp [chDotHead] at h
      | cons b t2 =>
        cases t2 with
        | nil => simp [chDotHead] at h
        | cons c3 t3 =>
          cases t3 with
          | nil => simp [chDotHead] at h
          | cons d q =>
            simp only [chDotHead, Bool.and_eq_true, beq_iff_eq] at h
            obtain ⟨⟨⟨ha, hb⟩, hc⟩, hd⟩ := h
            subst ha; subst hb; subst hc
            exact ⟨d, q, hd, rfl⟩
  · rintro ⟨d, q, hd, rfl⟩
    simp [chDotHead, hd]

/-- An occurrence of the literal `chapter` inside a cons is either at the
head position or inside the tail. -/
theorem occursA_cons (c : Char) (t : List Char) :
    (∃ p q, c :: t = p ++ chapterL ++ q) ↔
      ((∃ q, c :: t = chapterL ++ q) ∨ (∃ p q, t = p ++ chapterL ++ q)) := by
  constructor
  · rintro ⟨p, q, hp⟩
    cases p with
    | nil => exact Or.inl ⟨q, by simpa using hp⟩
    | cons x p2 =>
      simp only [List.cons_append] at hp
      rw [List.cons.injEq] at hp
      exact Or.inr ⟨p2, q, hp.2⟩
  · rintro (⟨q, hq⟩ | ⟨p, q, hp⟩)
    · exact ⟨[], q, by simpa using hq⟩
    · exact ⟨c :: p, q, by simp [hp]⟩

/-- An occurrence of `ep` plus digit inside a cons is either at the head
position or inside the tail. -/
theorem occursB_cons (c : Char) (t : List Char) :
    (∃ p d q, d.isDigit = true ∧ c :: t = p ++ 'e' :: 'p' :: d :: q) ↔
      ((∃ d q, d.isDigit = true ∧ c :: t = 'e' :: 'p' :: d :: q)
       ∨ (∃ p d q, d.isDigit = true ∧ t = p ++ 'e' :: 'p' :: d :: q)) := by
  constructor
  · rintro ⟨p, d, q, hd, hp⟩
    cases p with
    | nil => exact Or.inl ⟨d, q, hd, by simpa using hp⟩
    | cons x p2 =>
      simp only [List.cons_append] at hp
      rw [List.cons.injEq] at hp
      exact Or.inr ⟨p2, d, q, hd, hp.2⟩
  · rintro (⟨d, q, hd, hq⟩ | ⟨p, d, q, hd, hp⟩)
    · exact ⟨[], d, q, hd, by simpa using hq⟩
    · exact ⟨c :: p, d, q, hd, by simp [hp]⟩

/-- An occurrence of `ch.` plus digit inside a cons is either at the head
position or inside the tail. -/
theorem occursC_cons (c : Char) (t : List Char) :
    (∃ p d q, d.isDigit = true ∧ c :: t = p ++ 'c' :: 'h' :: '.' :: d :: q) ↔
      ((∃ d q, d.isDigit = true ∧ c :: t = 'c' :: 'h' :: '.' :: d :: q)
       ∨ (∃ p d q, d.isDigit = true ∧ t = p ++ 'c' :: 'h' :: '.' :: d :: q)) := by
  constructor
  · rintro ⟨p, d, q, hd, hp⟩
    cases p with
    | nil => exact Or.inl ⟨d, q, hd, by simpa using hp⟩
    | cons x p2 =>
      simp only [List.cons_append] at hp
      rw [List.cons.injEq] at hp
      exact Or.inr ⟨p2, d, q, hd, hp.2⟩
  · rintro (⟨d, q, hd, hq⟩ | ⟨p, d, q, hd, hp⟩)
    · exact ⟨[], d, q, hd, by simpa using hq⟩
    · exact ⟨c :: p, d, q, hd, by simp [hp]⟩

/-- The search routine agrees with the specification's reading of the
regex `chapter|ep\d+|ch\.\d+`. -/
theorem chapterSearch_iff : ∀ l, chapterSearch l = true ↔ specIndicator l := by
  intro l
  induction l with
  | nil =>
    simp only [chapterSearch, specIndicator]
    constructor
    · intro h; cases h
    · rintro (⟨p, q, h⟩ | ⟨p, d, q, hd, h⟩ | ⟨p, d, q, hd, h⟩) <;>
        · have hl := congrArg List.length h
          simp only [List.length_nil, List.length_append, List.length_cons,
            chapterL] at hl
          exact absurd hl (by omega)
  | cons c t ih =>
    have hsplit : specIndicator (c :: t) ↔
        (((∃ q, c :: t = chapterL ++ q)
          ∨ (∃ d q, d.isDigit = true ∧ c :: t = 'e' :: 'p' :: d :: q)
          ∨ (∃ d q, d.isDigit = true ∧ c :: t = 'c' :: 'h' :: '.' :: d :: q))
         ∨ specIndicator t) := by
      unfold specIndicator
      rw [occursA_cons, occursB_cons, occursC_cons]
      itauto
    rw [hsplit]
    simp only [chapterSearch, Bool.or_eq_true, chapterHead_iff, epHead_iff,
      chDotHead_iff, ih]
    itauto

/-- The filterMap pipeline of the source extractor equals the filter-map
pipeline of the specification's reading. -/
theorem fallback_core_eq (join : String → String → String) (url : String) :
    ∀ anchors : List Anchor,
      (anchors.filterMap (fun a => a.href.map (fun h => (a.text, h)))).filterMap
          (fun th =>
            if keepAnchorText th.1 then
              some { title := pyStrip th.1, url := join url th.2, selected := some true }
            else none)
        = (anchors.filter (fun a => a.href.isSome && keepAnchorText a.text)).map
            (fun a =>
              ({ title := pyStrip a.text, url := join url (a.href.getD ""),
                 selected := some true } : ChapterDict)) := by
  intro anchors
  induction anchors with
  | nil => rfl
  | cons a rest ih =>
    rcases a with ⟨href, text⟩
    cases href with
    | none => simpa using ih
    | some h =>
      cases hc : keepAnchorText text with
      | true => simp [List.filterMap_cons, List.filter_cons, hc, ih]
      | false => simp [List.filterMap_cons, List.filter_cons, hc, ih]

/-- The source extractor agrees with the specification's reading. -/
theorem fallback_eq_spec (join : String → String → String)
    (anchors : List Anchor) (url : String) :
    fallbackChapters join anchors url = specFallback join anchors url := by
  simp only [fallbackChapters, specFallback]
  rw [fallback_core_eq join url anchors]
  generalize (anchors.filter (fun a => a.href.isSome && keepAnchorText a.text)).map
        (fun a =>
          ({ title := pyStrip a.text, url := join url (a.href.getD ""),
             selected := some true } : ChapterDict)) = m
  cases m with
  | nil => simp
  | cons y ys => simp

/-- C6: the fallback extractor returns, in document order, exactly the
anchors with an `href` and non-empty visible text whose lowercased text
matches the chapter-indicator pattern, each resolved against the base URL
and marked selected, with the single synthetic `Full Page Content` chapter
when nothing matches (first conjunct, an equality with the specification's
reading of the algorithm); and the indicator test matches precisely the
texts containing the literal `chapter`, or `ep` followed by a digit, or
`ch.` followed by a digit (second conjunct). -/
theorem c6_fallback_extractor_matches_spec :
    ∀ (join : String → String → String) (anchors : List Anchor) (url : String),
      fallbackChapters join anchors url = specFallback join anchors url
      ∧ ∀ s : String, chapterIndicator s = true ↔ specIndicator s.data := by
  intro join anchors url
  exact ⟨fallback_eq_spec join anchors url, fun s => chapterSearch_iff s.data⟩

/-- Concrete instance of the indicator characterization: `ep5` matches via
the `ep` + digit alternative. -/
theorem c6_fallback_witness : chapterIndicator "ep5" = true :=
  ((c6_fallback_extractor_matches_spec (fun _ b => b) [] "").2 "ep5").mpr
    (Or.inr (Or.inl ⟨[], '5', [], by decide, by decide⟩))

/-- Unfolding of `firstWith` on a cons cell. -/
theorem firstWith_cons (r : Record) (t : List Record) (f : String) :
    firstWith (r :: t) f = if r.filename == f then some r else firstWith t f := by
  simp only [firstWith, List.find?]
  cases h : r.filename == f <;> simp [h]

/-- A no-op update: when the first document with the record's filename is
already the record itself, `setFirst` returns the store unchanged and
reports no modification. -/
theorem setFirst_self : ∀ (store : List Record) (p : Record),
    firstWith store p.filename = some p → setFirst store p = some (store, false) := by
  intro store p
  induction store with
  | nil => intro h; simp [firstWith] at h
  | cons r t ih =>
    intro h
    rw [firstWith_cons] at h
    cases hr : r.filename == p.filename with
    | true =>
      have hrp : r = p := by
        have := h
        rw [hr] at this
        simpa using this
      subst hrp
      simp [setFirst, hr]
    | false =>
      have h2 : firstWith t p.filename = some p := by
        rw [hr] at h
        simpa using h
      simp [setFirst, hr, ih h2]



/-- After a successful `setFirst`, the first document with the record's
filename is the record, and lookups at any other filename are
unchanged. -/
theorem setFirst_some : ∀ (store s2 : List Record) (p : Record) (m : Bool),
    setFirst store p = some (s2, m) →
    firstWith s2 p.filename = some p ∧
      ∀ f, ¬ f = p.filename → firstWith s2 f = firstWith store f := by
  intro store
  induction store with
  | nil => intro s2 p m h; simp [setFirst] at h
  | cons r t ih =>
    intro s2 p m h
    cases hr : r.filename == p.filename with
    | true =>
      simp only [setFirst, hr, if_true] at h
      obtain ⟨h1, h2⟩ : p :: t = s2 ∧ (!(r == p)) = m := by
        rw [Option.some.injEq, Prod.mk.injEq] at h
        exact h
      subst h1
      have hrp : r.filename = p.filename := by simpa using hr
      constructor
      · rw [firstWith_cons]
        simp
      · intro f hf
        have hpf : (p.filename == f) = false := by
          cases hb : p.filename == f with
          | true =>
            have hpf2 : p.filename = f := by simpa using hb
            exact absurd hpf2.symm hf
          | false => rfl
        rw [firstWith_cons, firstWith_cons, hrp, hpf]
        simp
    | false =>
      cases hst : setFirst t p with
      | none => simp [setFirst, hr, hst] at h
      | some pr =>
        rcases pr with ⟨s3, m3⟩
        simp only [setFirst, hr, hst, Bool.false_eq_true, if_false] at h
        obtain ⟨h1, h2⟩ : r :: s3 = s2 ∧ m3 = m := by
          rw [Option.some.injEq, Prod.mk.injEq] at h
          exact h
        subst h1
        obtain ⟨post, frame⟩ := ih s3 p m3 hst
        constructor
        · rw [firstWith_cons, hr]
          simpa using post
        · intro f hf
          rw [firstWith_cons, firstWith_cons]
          cases hrf : r.filename == f with
          | true => simp
          | false => simpa using frame f hf

/-- When `setFirst` misses, no document carries the filename. -/
theorem setFirst_none : ∀ (store : List Record) (p : Record),
    setFirst store p = none → firstWith store p.filename = none := by
  intro store p
  induction store with
  | nil => intro _; rfl
  | cons r t ih =>
    intro h
    cases hr : r.filename == p.filename with
    | true => simp [setFirst, hr] at h
    | false =>
      cases hst : setFirst t p with
      | some pr => simp [setFirst, hr, hst] at h
      | none =>
        rw [firstWith_cons, hr]
        simpa using ih hst

/-- Lookup distributes over append, preferring the left part. -/
theorem firstWith_append (l1 l2 : List Record) (f : String) :
    firstWith (l1 ++ l2) f =
      match firstWith l1 f with
      | some r => some r
      | none => firstWith l2 f := by
  induction l1 with
  | nil => simp [firstWith]
  | cons r t ih =>
    rw [List.cons_append, firstWith_cons, firstWith_cons]
    cases hr : r.filename == f <;> simp [ih]

/-- The store component of one bulk-write operation. -/
def applyStore (s : List Record) (p : Record) : List Record :=
  match setFirst s p with
  | some sp => sp.1
  | none => s ++ [p]

/-- `applyOne` changes the store exactly as `applyStore` does. -/
theorem applyOne_fst (st : List Record × Nat × Nat) (p : Record) :
    (applyOne st p).1 = applyStore st.1 p := by
  unfold applyOne applyStore
  cases h : setFirst st.1 p with
  | none => rfl
  | some sp => rcases sp with ⟨s2, m⟩; rfl

/-- The store component of the whole bulk write. -/
theorem bulkWrite_fst : ∀ (batch : List Record) (s : List Record) (u m : Nat),
    (batch.foldl applyOne (s, u, m)).1 = batch.foldl applyStore s := by
  intro batch
  induction batch with
  | nil => intro s u m; rfl
  | cons p rest ih =>
    intro s u m
    rcases hX : applyOne (s, u, m) p with ⟨s1, u1, m1⟩
    have hfst : s1 = applyStore s p := by
      rw [← applyOne_fst (s, u, m) p, hX]
    rw [List.foldl_cons, List.foldl_cons, hX, ih s1 u1 m1, hfst]

/-- After one operation the operated filename maps to the new record. -/
theorem applyStore_post (s : List Record) (p : Record) :
    firstWith (applyStore s p) p.filename = some p := by
  unfold applyStore
  cases h : setFirst s p with
  | some sp =>
    rcases sp with ⟨s2, m⟩
    exact (setFirst_some s s2 p m h).1
  | none =>
    rw [firstWith_append, setFirst_none s p h]
    rw [firstWith_cons]
    simp

/-- One operation leaves lookups at other filenames unchanged. -/
theorem applyStore_frame (s : List Record) (p : Record) (f : String)
    (hf : ¬ f = p.filename) :
    firstWith (applyStore s p) f = firstWith s f := by
  unfold applyStore
  cases h : setFirst s p with
  | some sp =>
    rcases sp with ⟨s2, m⟩
    exact (setFirst_some s s2 p m h).2 f hf
  | none =>
    rw [firstWith_append]
    have hone : firstWith [p] f = none := by
      rw [firstWith_cons]
      have hpf : (p.filename == f) = false := by
        cases hb : p.filename == f with
        | true =>
          have : p.filename = f := by simpa using hb
          exact absurd this.symm hf
        | false => rfl
      simp [hpf, firstWith]
    cases hs : firstWith s f <;> simp [hone]

/-- A batch of operations leaves lookups at untouched filenames
unchanged. -/
theorem batchStore_frame : ∀ (batch : List Record) (s : List Record) (f : String),
    (∀ p ∈ batch, ¬ f = p.filename) →
    firstWith (batch.foldl applyStore s) f = firstWith s f := by
  intro batch
  induction batch with
  | nil => intro s f _; rfl
  | cons p rest ih =>
    intro s f h
    rw [List.foldl_cons,
      ih (applyStore s p) f (fun q hq => h q (List.mem_cons_of_mem p hq))]
    exact applyStore_frame s p f (h p (List.mem_cons_self p rest))

/-- After a batch with pairwise-distinct filenames, every batch record is
the first document at its filename. -/
theorem batchStore_post : ∀ (batch : List Record) (s : List Record),
    (batch.map Record.filename).Nodup →
    ∀ p ∈ batch, firstWith (batch.foldl applyStore s) p.filename = some p := by
  intro batch
  induction batch with
  | nil => intro s _ p hp; cases hp
  | cons q rest ih =>
    intro s hnd p hp
    rw [List.map_cons, List.nodup_cons] at hnd
    obtain ⟨hq, hrest⟩ := hnd
    rw [List.foldl_cons]
    rcases List.mem_cons.mp hp with rfl | hpr
    · rw [batchStore_frame rest (applyStore s p) p.filename ?frame]
      · exact applyStore_post s p
      case frame =>
        intro r hr heq
        exact hq (heq ▸ List.mem_map_of_mem Record.filename hr)
    · exact ih (applyStore s q) hrest p hpr

/-- Replaying a batch against a store where every batch record is already
the first document at its filename changes nothing and counts nothing. -/
theorem applyBatch_noop : ∀ (batch : List Record) (s : List Record) (u m : Nat),
    (∀ p ∈ batch, firstWith s p.filename = some p) →
    batch.foldl applyOne (s, u, m) = (s, u, m) := by
  intro batch
  induction batch with
  | nil => intro s u m _; rfl
  | cons p rest ih =>
    intro s u m h
    rw [List.foldl_cons]
    have hsf : setFirst s p = some (s, false) :=
      setFirst_self s p (h p (List.mem_cons_self p rest))
    have hone : applyOne (s, u, m) p = (s, u, m) := by
      simp [applyOne, hsf]
    rw [hone]
    exact ih s u m (fun q hq => h q (List.mem_cons_of_mem p hq))

/-- Every document of a store produced by `setFirst` was in the old store
or is the new record. -/
theorem setFirst_mem : ∀ (store s2 : List Record) (p x : Record) (m : Bool),
    setFirst store p = some (s2, m) → x ∈ s2 → x ∈ store ∨ x = p := by
  intro store
  induction store with
  | nil => intro s2 p x m h; simp [setFirst] at h
  | cons r t ih =>
    intro s2 p x m h hx
    cases hr : r.filename == p.filename with
    | true =>
      simp only [setFirst, hr, if_true] at h
      obtain ⟨h1, h2⟩ : p :: t = s2 ∧ (!(r == p)) = m := by
        rw [Option.some.injEq, Prod.mk.injEq] at h
        exact h
      subst h1
      rcases List.mem_cons.mp hx with rfl | hxt
      · exact Or.inr rfl
      · exact Or.inl (List.mem_cons_of_mem r hxt)
    | false =>
      cases hst : setFirst t p with
      | none => simp [setFirst, hr, hst] at h
      | some pr =>
        rcases pr with ⟨s3, m3⟩
        simp only [setFirst, hr, hst, Bool.false_eq_true, if_false] at h
        obtain ⟨h1, h2⟩ : r :: s3 = s2 ∧ m3 = m := by
          rw [Option.some.injEq, Prod.mk.injEq] at h
          exact h
        subst h1
        rcases List.mem_cons.mp hx with rfl | hx3
        · exact Or.inl (List.mem_cons_self x t)
        · rcases ih s3 p x m3 hst hx3 with h4 | h4
          · exact Or.inl (List.mem_cons_of_mem r h4)
          · exact Or.inr h4

/-- Every document after one operation was present before or is the
operated record. -/
theorem applyStore_mem (s : List Record) (p x : Record) :
    x ∈ applyStore s p → x ∈ s ∨ x = p := by
  unfold applyStore
  cases h : setFirst s p with
  | some sp =>
    rcases sp with ⟨s2, m⟩
    exact fun hx => setFirst_mem s s2 p x m h hx
  | none =>
    intro hx
    rcases List.mem_append.mp hx with h1 | h2
    · exact Or.inl h1
    · exact Or.inr (List.mem_singleton.mp h2)

/-- Every document after a batch of operations was present before or comes
from the batch. -/
theorem batchStore_mem : ∀ (batch : List Record) (s : List Record) (x : Record),
    x ∈ batch.foldl applyStore s → x ∈ s ∨ x ∈ batch := by
  intro batch
  induction batch with
  | nil => intro s x hx; exact Or.inl hx
  | cons p rest ih =>
    intro s x hx
    rw [List.foldl_cons] at hx
    rcases ih (applyStore s p) x hx with h1 | h2
    · rcases applyStore_mem s p x h1 with h3 | h3
      · exact Or.inl h3
      · exact Or.inr (h3 ▸ List.mem_cons_self p rest)
    · exact Or.inr (List.mem_cons_of_mem p h2)

/-- A record and a same-filename variant, for the duplicate-id
counterexample. -/
def recA : Record :=
  { filename := "Dup.js", domains := ["a.com"], script := "A" }

/-- See `recA`. -/
def recB : Record :=
  { filename := "Dup.js", domains := ["a.com"], script := "B" }

/-- A store inhabitant that no reload batch below mentions. -/
def oldRec : Record :=
  { filename := "Old.js", domains := ["old.com"], script := "OLD" }

/-- A reload batch inhabitant distinct from `oldRec`. -/
def newRec : Record :=
  { filename := "New.js", domains := ["new.com"], script := "NEW" }

/-- C7 counterexample: for the batch `[recA, recB]` holding two records
with the same filename and different contents, the second application of
the identical batch reports 2 changed records, not 0 as the claim states
for any batch — while the stored set itself is unchanged. -/
theorem c7_duplicate_ids_break_reported_idempotence :
    (save_parsers_from_repo (save_parsers_from_repo [] [recA, recB]).1 [recA, recB]).2 = 2
    ∧ (save_parsers_from_repo (save_parsers_from_repo [] [recA, recB]).1 [recA, recB]).2 ≠ 0
    ∧ (save_parsers_from_repo (save_parsers_from_repo [] [recA, recB]).1 [recA, recB]).1 =
        (save_parsers_from_repo [] [recA, recB]).1 := by
  decide

/-- C7 amended: for any batch whose records carry pairwise-distinct
filenames (as every batch built from the manifest mapping does), applying
the identical batch a second time leaves the stored set, and hence its
count, unchanged, and the second application reports zero changed
records. -/
theorem c7_upsert_idempotent_for_distinct_ids :
    ∀ (store batch : List Record), (batch.map Record.filename).Nodup →
      (save_parsers_from_repo (save_parsers_from_repo store batch).1 batch).1 =
        (save_parsers_from_repo store batch).1
      ∧ (save_parsers_from_repo (save_parsers_from_repo store batch).1 batch).2 = 0
      ∧ (save_parsers_from_repo (save_parsers_from_repo store batch).1 batch).1.length =
          (save_parsers_from_repo store batch).1.length := by
  intro store batch hnd
  cases batch with
  | nil => exact ⟨rfl, rfl, rfl⟩
  | cons b bs =>
    have hunf : ∀ s : List Record, save_parsers_from_repo s (b :: bs) =
        ((bulkWrite s (b :: bs)).1,
          (bulkWrite s (b :: bs)).2.1 + (bulkWrite s (b :: bs)).2.2) :=
      fun s => rfl
    have h1 : (save_parsers_from_repo store (b :: bs)).1 =
        (b :: bs).foldl applyStore store := by
      rw [hunf store]
      exact bulkWrite_fst (b :: bs) store 0 0
    have hpost : ∀ p ∈ (b :: bs),
        firstWith ((b :: bs).foldl applyStore store) p.filename = some p :=
      batchStore_post (b :: bs) store hnd
    have hnoop : (b :: bs).foldl applyOne ((b :: bs).foldl applyStore store, 0, 0) =
        ((b :: bs).foldl applyStore store, 0, 0) :=
      applyBatch_noop (b :: bs) _ 0 0 hpost
    have hbulk2 : bulkWrite ((b :: bs).foldl applyStore store) (b :: bs) =
        ((b :: bs).foldl applyStore store, 0, 0) := hnoop
    have hsave2 : save_parsers_from_repo ((b :: bs).foldl applyStore store) (b :: bs) =
        ((b :: bs).foldl applyStore store, 0) := by
      rw [hunf, hbulk2]
      rfl
    rw [h1, hsave2]
    exact ⟨rfl, rfl, rfl⟩

/-- Concrete instance of the amended C7 statement on a single-record
batch. -/
theorem c7_idempotence_witness :
    (save_parsers_from_repo (save_parsers_from_repo [] [recB]).1 [recB]).1 =
      (save_parsers_from_repo [] [recB]).1
    ∧ (save_parsers_from_repo (save_parsers_from_repo [] [recB]).1 [recB]).2 = 0 :=
  ⟨(c7_upsert_idempotent_for_distinct_ids [] [recB] (by decide)).1,
   (c7_upsert_idempotent_for_distinct_ids [] [recB] (by decide)).2.1⟩

/-- C8 counterexample: reloading the manifest batch `[newRec]` over a
store holding `oldRec` — whose id appears nowhere in the batch — removes
`oldRec`, refuting the claim that such records remain present. -/
theorem c8_reload_drops_unlisted_record :
    firstWith (load_parsers_from_manifest [oldRec] [newRec]).1 "Old.js" = none
    ∧ firstWith [oldRec] "Old.js" = some oldRec := by
  decide

/-- C8 amended: a reload with a non-empty batch is destructive
clear-then-insert — its result is independent of the prior store, and
every stored record afterwards carries the filename of some batch record,
so prior records with ids outside the batch are removed rather than
preserved. -/
theorem c8_reload_is_destructive :
    ∀ (store store2 batch : List Record), batch.isEmpty = false →
      load_parsers_from_manifest store batch = load_parsers_from_manifest store2 batch
      ∧ ∀ r ∈ (load_parsers_from_manifest store batch).1,
          ∃ p, p ∈ batch ∧ r.filename = p.filename := by
  intro store store2 batch hb
  have hload : ∀ s : List Record,
      load_parsers_from_manifest s batch = save_parsers_from_repo [] batch := by
    intro s
    unfold load_parsers_from_manifest
    rw [hb]
    simp [clean_repo_parsers]
  constructor
  · rw [hload store, hload store2]
  · intro r hr
    rw [hload store] at hr
    cases batch with
    | nil => simp at hb
    | cons b bs =>
      have h1 : (save_parsers_from_repo [] (b :: bs)).1 =
          (b :: bs).foldl applyStore [] := by
        have hunf : save_parsers_from_repo [] (b :: bs) =
            ((bulkWrite [] (b :: bs)).1,
              (bulkWrite [] (b :: bs)).2.1 + (bulkWrite [] (b :: bs)).2.2) := rfl
        rw [hunf]
        exact bulkWrite_fst (b :: bs) [] 0 0
      rw [h1] at hr
      rcases batchStore_mem (b :: bs) [] r hr with h2 | h2
      · cases h2
      · exact ⟨r, h2, rfl⟩

/-- Concrete instance of the amended C8 statement: the reload result over
the `[oldRec]` store equals the reload result over the empty store. -/
theorem c8_destructive_witness :
    load_parsers_from_manifest [oldRec] [newRec] =
      load_parsers_from_manifest [] [newRec] :=
  (c8_reload_is_destructive [oldRec] [] [newRec] rfl).1
